import Mathlib

/-!
Verification of the course recommendation engine in
`ml_models/course_recommendation/model.py` (class `CourseRecommendationSystem`).

The Python code is shallowly embedded: pandas data frames become lists of
records, float arithmetic becomes exact rational arithmetic (`ℚ`), the
floating-point cosine computations of scikit-learn are modelled over `ℝ`
where their mathematical properties are at stake, and Python `IndexError`
raising code paths return `Except.error`.  The only parts not translated
syntactically are direct scikit-learn library calls (TF-IDF fitting and
cosine similarity); these enter the model as explicit data (the fitted
artifacts stored on the trained object) or as function parameters, as
documented at each definition.
-/

/-- A row of `courses_df` as loaded by `load_data` (after JSON parsing of
`prerequisites` and `keywords`). -/
structure Course where
  course_id : String
  course_code : String
  course_name : String
  department : String
  description : String
  credits : ℕ
  level : ℕ
  difficulty : String
  prerequisites : List String
  keywords : List String
deriving Inhabited, DecidableEq, Repr

/-- A row of `students_df` (after JSON parsing of `topic_interests`). -/
structure Student where
  student_id : String
  major : String
  department : String
  year_of_study : ℕ
  gpa : ℚ
  topic_interests : List String
deriving Inhabited, DecidableEq, Repr

/-- A row of `course_history_df`; `student_rating` is `none` where the CSV
value was null/NaN (`pd.to_numeric(..., errors='coerce')`). -/
structure HistoryRecord where
  student_id : String
  course_id : String
  term : String
  grade_value : ℚ
  student_rating : Option ℚ
deriving Inhabited, DecidableEq, Repr

/-- The per-record interaction value of `_create_student_course_matrix`:
`np.where(student_rating.notna(), student_rating, grade_value / 4.0 * 5)`. -/
def interactionValue (r : HistoryRecord) : ℚ :=
  match r.student_rating with
  | some v => v
  | none => r.grade_value / 4 * 5

/-- All history records for one (student, course) pair. -/
def pairRecords (hist : List HistoryRecord) (s c : String) : List HistoryRecord :=
  hist.filter (fun r => r.student_id = s ∧ r.course_id = c)

/-- A cell of the pivoted `student_course_matrix`: `pivot_table` with the
default `aggfunc='mean'` averages the interaction values of all records of
the pair, and `fill_value=0` puts `0` where the pair has no record. -/
def matrixCell (hist : List HistoryRecord) (s c : String) : ℚ :=
  let recs := pairRecords hist s c
  if recs.isEmpty then 0 else (recs.map interactionValue).sum / recs.length

/-- Helper for `firstUnique`: keeps elements not seen yet, in order. -/
def firstUniqueGo : List String → List String → List String
  | [], _ => []
  | x :: xs, seen => if x ∈ seen then firstUniqueGo xs seen else x :: firstUniqueGo xs (x :: seen)

/-- List of distinct elements in order of first occurrence (the order pandas
`Series.unique` uses). -/
def firstUnique (l : List String) : List String := firstUniqueGo l []

/-- Lexicographic comparison of strings by character code, matching the
ordering pandas uses to sort a pivot table's index and columns. -/
def lexLe : List Char → List Char → Bool
  | [], _ => true
  | _ :: _, [] => false
  | a :: as, b :: bs =>
    if a.val.toNat < b.val.toNat then true
    else if b.val.toNat < a.val.toNat then false
    else lexLe as bs

/-- String comparison used when sorting the pivot table's labels. -/
def strLe (a b : String) : Bool := lexLe a.data b.data

/-- Insert into a list sorted ascending by `strLe`. -/
def insertAsc (s : String) : List String → List String
  | [] => [s]
  | x :: l => if strLe s x then s :: x :: l else x :: insertAsc s l

/-- Sort strings ascending (pandas sorts pivot index/column labels). -/
def sortStrings (l : List String) : List String := l.foldr insertAsc []

/-- Index (row labels) of `student_course_matrix`: the distinct student ids
appearing in the history, sorted. -/
def matrixIndex (hist : List HistoryRecord) : List String :=
  sortStrings (firstUnique (hist.map (·.student_id)))

/-- Columns of `student_course_matrix`: the distinct course ids appearing in
the history, sorted. -/
def matrixColumns (hist : List HistoryRecord) : List String :=
  sortStrings (firstUnique (hist.map (·.course_id)))

/-- Sum of a student's row of the interaction matrix
(`student_course_matrix.loc[student_id].sum()`). -/
def rowSum (hist : List HistoryRecord) (s : String) : ℚ :=
  ((matrixColumns hist).map (matrixCell hist s)).sum

/-- The trained state of `CourseRecommendationSystem` after `train`: the
three data tables plus the fitted scikit-learn artifacts.  `querySim q` is
the composite `cosine_similarity(course_vectorizer.transform([q]),
course_content_matrix)[0]` (one similarity per course, in course order) and
`course_similarity_matrix` is the stored `cosine_similarity(
course_content_matrix)`; both are library outputs carried as data, exactly
as the Python object carries the fitted vectorizer and matrices. -/
structure TrainedModel where
  courses : List Course
  students : List Student
  history : List HistoryRecord
  querySim : String → List ℚ
  course_similarity_matrix : List (List ℚ)

/-- Enrollment count of a course (`course_history_df.groupby('course_id').size()`,
with `fillna(0)` after the merge). -/
def enrollmentCount (hist : List HistoryRecord) (c : String) : ℕ :=
  (hist.filter (fun r => r.course_id = c)).length

/-- The non-null ratings recorded for a course. -/
def ratedRatings (hist : List HistoryRecord) (c : String) : List ℚ :=
  (hist.filter (fun r => r.course_id = c)).filterMap (·.student_rating)

/-- The `avg_rating` value produced by the groupby-mean over non-null ratings
in `_calculate_course_popularity`; `none` models the NaN a course without any
rated record has after the left merge. -/
def avgRatingRaw (hist : List HistoryRecord) (c : String) : Option ℚ :=
  let rs := ratedRatings hist c
  if rs.isEmpty then none else some (rs.sum / rs.length)

/-- The `avg_rating` column after `fillna(0)` (line
`self.courses_df['avg_rating'] = self.courses_df['avg_rating'].fillna(0)`). -/
def avgRatingFilled (hist : List HistoryRecord) (c : String) : ℚ :=
  (avgRatingRaw hist c).getD 0

/-- The `avg_rating` cell a course row holds after training: `fillna(0)` has
replaced every NaN, so the cell is always a present (non-NaN) value. -/
def avgRatingCol (hist : List HistoryRecord) (c : String) : Option ℚ :=
  some (avgRatingFilled hist c)

/-- `enrollment_max = max(self.courses_df['enrollment_count'].max(), 1)`. -/
def enrollmentMax (courses : List Course) (hist : List HistoryRecord) : ℕ :=
  Nat.max ((courses.map (fun k => enrollmentCount hist k.course_id)).foldl Nat.max 0) 1

/-- The `popularity_score` column of `_calculate_course_popularity`:
`0.7 * enrollment_count / enrollment_max + 0.3 * avg_rating / 5.0`. -/
def popularityScore (courses : List Course) (hist : List HistoryRecord) (c : String) : ℚ :=
  0.7 * (enrollmentCount hist c : ℚ) / (enrollmentMax courses hist : ℚ)
    + 0.3 * avgRatingFilled hist c / 5

/-- The taken-course set of `recommend_courses` (computed only when
`exclude_taken` is set; membership-equivalent to the Python `set`). -/
def takenCourses (hist : List HistoryRecord) (sid : String) (exclude_taken : Bool) :
    List String :=
  if exclude_taken then (hist.filter (fun r => r.student_id = sid)).map (·.course_id) else []

/-- The query string of `_get_content_based_recommendations`:
interests joined by spaces plus the department, or the department alone. -/
def contentQueryText (interests : List String) (department : String) : String :=
  if interests = [] then department else String.intercalate " " interests ++ " " ++ department

/-- The loop of `_get_content_based_recommendations` that adds, for every
distinct course the student has taken that exists in `courses_df`, 0.5 times
that course's row of the stored course similarity matrix onto the running
similarity vector (`similarity_scores += 0.5 * course_similarities`). -/
def addTakenSims (m : TrainedModel) (base : List ℚ) (cs : List String) : List ℚ :=
  cs.foldl (fun s c =>
    if m.courses.any (fun k => k.course_id = c) then
      s.zipWith (fun a b => a + 0.5 * b)
        (m.course_similarity_matrix.getD (m.courses.findIdx (fun k => k.course_id = c)) [])
    else s) base

/-- Insert into a score-descending list, after existing entries of equal
score: folding this from the right is exactly Python's stable
`sorted(..., key=lambda x: x[1], reverse=True)`. -/
def insertByDesc (p : String × ℚ) : List (String × ℚ) → List (String × ℚ)
  | [] => [p]
  | q :: l => if q.2 ≤ p.2 then p :: q :: l else q :: insertByDesc p l

/-- Stable descending sort by score, as Python's `sorted(..., reverse=True)`. -/
def sortByScoreDesc (l : List (String × ℚ)) : List (String × ℚ) := l.foldr insertByDesc []

/-- `_get_content_based_recommendations`: similarity of the interest query to
every course, plus 0.5-weighted similarity rows of taken courses, paired with
the course ids, sorted by score descending, truncated to `limit`. -/
def getContentBased (m : TrainedModel) (sid : String) (interests : List String)
    (department : String) (limit : ℕ) : List (String × ℚ) :=
  let sims := addTakenSims m (m.querySim (contentQueryText interests department))
    (firstUnique ((m.history.filter (fun r => r.student_id = sid)).map (·.course_id)))
  let course_scores := (List.range m.courses.length).map
    (fun i => ((m.courses.getD i default).course_id, sims.getD i 0))
  (sortByScoreDesc course_scores).take limit

/-- Python dict assignment `d[k] = v` on an insertion-ordered association
list with unique keys. -/
def dictSet : List (String × ℚ) → String → ℚ → List (String × ℚ)
  | [], k, v => [(k, v)]
  | p :: d, k, v => if p.1 = k then (p.1, v) :: d else p :: dictSet d k v

/-- Python `if k not in d: d[k] = 0` followed by `d[k] += v`. -/
def dictAdd : List (String × ℚ) → String → ℚ → List (String × ℚ)
  | [], k, v => [(k, v)]
  | p :: d, k, v => if p.1 = k then (p.1, p.2 + v) :: d else p :: dictAdd d k v

/-- The neighbour-search loop of `_get_collaborative_recommendations`: for
every other student of the matrix index sharing at least two commonly rated
courses, the similarity `simFn` restricted to the commonly rated coordinates
is recorded.  `simFn` stands for the scikit-learn call
`cosine_similarity([student_ratings[mask]], [other_ratings[mask]])[0][0]`. -/
def similarStudents (m : TrainedModel) (simFn : List ℚ → List ℚ → ℚ) (sid : String)
    (cols : List String) (sRow : List ℚ) : List (String × ℚ) :=
  (matrixIndex m.history).foldl (fun acc other =>
    if other = sid then acc
    else
      let oRow := cols.map (matrixCell m.history other)
      let maskPairs := (sRow.zip oRow).filter (fun p => 0 < p.1 ∧ 0 < p.2)
      if 2 ≤ maskPairs.length then
        if maskPairs.length = 0 then acc
        else dictSet acc other (simFn (maskPairs.map (·.1)) (maskPairs.map (·.2)))
      else acc) []

/-- `_get_collaborative_recommendations`: empty for a student without a
matrix row; otherwise scores are accumulated from the ten most similar
neighbours, for every course the neighbour liked (rating above 3) that the
target student has not interacted with, as `similarity * (rating / 5)`. -/
def getCollaborative (m : TrainedModel) (simFn : List ℚ → List ℚ → ℚ) (sid : String)
    (limit : ℕ) : List (String × ℚ) :=
  if sid ∉ matrixIndex m.history then []
  else
    let cols := matrixColumns m.history
    let sRow := cols.map (matrixCell m.history sid)
    let neighbors := (sortByScoreDesc (similarStudents m simFn sid cols sRow)).take 10
    let course_scores := neighbors.foldl (fun d p =>
      cols.foldl (fun d c =>
        if 3 < matrixCell m.history p.1 c ∧ matrixCell m.history sid c = 0 then
          dictAdd d c (p.2 * (matrixCell m.history p.1 c / 5))
        else d) d) []
    (sortByScoreDesc course_scores).take limit

/-- The guard of `recommend_courses` around the collaborative call:
`if student_id in self.student_course_matrix.index and not
self.student_course_matrix.loc[student_id].sum() == 0`. -/
def collabRecsUsed (m : TrainedModel) (simFn : List ℚ → List ℚ → ℚ) (sid : String)
    (limit : ℕ) : List (String × ℚ) :=
  if sid ∈ matrixIndex m.history ∧ ¬ rowSum m.history sid = 0 then
    getCollaborative m simFn sid (limit * 2)
  else []

/-- The merge step of `recommend_courses`: content entries enter the dict
with weight 0.4, collaborative entries add 0.6 times their score to an
existing entry or create one; courses of the taken set are dropped. -/
def mergedRecs (content collab : List (String × ℚ)) (taken : List String) :
    List (String × ℚ) :=
  collab.foldl (fun d p => if p.1 ∈ taken then d else dictAdd d p.1 (p.2 * 0.6))
    (content.foldl (fun d p => if p.1 ∈ taken then d else dictSet d p.1 (p.2 * 0.4)) [])

/-- The difficulty skip of the filtering loop:
`difficulty_filter is not None and course['difficulty'] != difficulty_filter`. -/
def difficultySkip (dfilter : Option String) (course : Course) : Bool :=
  match dfilter with
  | some d => course.difficulty ≠ d
  | none => false

/-- `level_match`: 1.2 when `course['level'] // 100 == student_year`
(ℕ division is Python's floor division here), else 1.0. -/
def levelMatch (course : Course) (year : ℕ) : ℚ :=
  if course.level / 100 = year then 1.2 else 1.0

/-- The filtering-and-scoring loop of `recommend_courses` (lines 344–369):
each candidate's course row is looked up (`.iloc[0]`, an `IndexError` when
the id is absent), the difficulty filter and the prerequisite check are
applied, and survivors get
`final = score * 0.6 + (popularity_score * 0.2) * 0.2 + level_match * 0.2`. -/
def filterCandidates (m : TrainedModel) (taken : List String) (dfilter : Option String)
    (year : ℕ) : List (String × ℚ) → Except String (List (String × ℚ))
  | [] => Except.ok []
  | p :: rest =>
    match m.courses.find? (fun k => k.course_id = p.1) with
    | none => Except.error "IndexError: single positional indexer is out-of-bounds"
    | some course =>
      if difficultySkip dfilter course then filterCandidates m taken dfilter year rest
      else if course.prerequisites.all (fun q => q ∈ taken) then
        (filterCandidates m taken dfilter year rest).map
          (fun l => (p.1, p.2 * 0.6 + (popularityScore m.courses m.history p.1 * 0.2) * 0.2
            + levelMatch course year * 0.2) :: l)
      else filterCandidates m taken dfilter year rest

/-- Python's `round` on an exact value: round half to even. -/
def pyRound (q : ℚ) : ℤ :=
  if q - ⌊q⌋ < 1/2 then ⌊q⌋
  else if 1/2 < q - ⌊q⌋ then ⌊q⌋ + 1
  else if ⌊q⌋ % 2 = 0 then ⌊q⌋ else ⌊q⌋ + 1

/-- One formatted recommendation record of `recommend_courses`. -/
structure RecOut where
  courseId : String
  courseName : String
  courseCode : String
  department : String
  credits : ℕ
  difficulty : String
  description : String
  rating : Option ℚ
  matchScore : ℤ
  keywords : List String
deriving Inhabited, DecidableEq, Repr

/-- The emitted rating field: `course['avg_rating'] if not
pd.isna(course['avg_rating']) else None`, on an `Option`-encoded cell
(`none` = NaN). -/
def fmtRating (cell : Option ℚ) : Option ℚ :=
  match cell with
  | some v => some v
  | none => none

/-- The result-formatting loop of `recommend_courses` (lines 375–391); the
course row is looked up again by id, and
`matchScore = min(round(score * 100), 100)`. -/
def formatRecs (m : TrainedModel) : List (String × ℚ) → Except String (List RecOut)
  | [] => Except.ok []
  | p :: rest =>
    match m.courses.find? (fun k => k.course_id = p.1) with
    | none => Except.error "IndexError: single positional indexer is out-of-bounds"
    | some course =>
      (formatRecs m rest).map (fun l =>
        { courseId := p.1
          courseName := course.course_name
          courseCode := course.course_code
          department := course.department
          credits := course.credits
          difficulty := course.difficulty
          description := course.description
          rating := fmtRating (avgRatingCol m.history p.1)
          matchScore := min (pyRound (p.2 * 100)) 100
          keywords := course.keywords } :: l)

/-- `recommend_courses(student_id, limit, exclude_taken, difficulty_filter)`:
taken set, student profile lookup (`.iloc[0]` raises `IndexError` for an
unknown student id), content-based and guarded collaborative candidate lists
(each requesting `limit*2`), merge, filter-and-score, stable descending sort,
truncation to `limit`, and formatting. -/
def recommend_courses (m : TrainedModel) (simFn : List ℚ → List ℚ → ℚ) (student_id : String)
    (limit : ℕ) (exclude_taken : Bool) (difficulty_filter : Option String) :
    Except String (List RecOut) :=
  let taken_courses := takenCourses m.history student_id exclude_taken
  match m.students.find? (fun s => s.student_id = student_id) with
  | none => Except.error "IndexError: single positional indexer is out-of-bounds"
  | some student =>
    let content_based_recs :=
      getContentBased m student_id student.topic_interests student.department (limit * 2)
    let collaborative_recs := collabRecsUsed m simFn student_id limit
    let all_recs := mergedRecs content_based_recs collaborative_recs taken_courses
    match filterCandidates m taken_courses difficulty_filter student.year_of_study all_recs with
    | Except.error e => Except.error e
    | Except.ok filtered => formatRecs m ((sortByScoreDesc filtered).take limit)

/-- Lookup in an insertion-ordered association list (Python `d[k]` /
`k in d`): the first entry with the given key. -/
def lookupQ (d : List (String × ℚ)) (k : String) : Option ℚ :=
  (d.find? (fun p => p.1 = k)).map (·.2)

/-- Python `list.index`: position of the first occurrence. -/
def idxOfStr (x : String) : List String → ℕ
  | [] => 0
  | y :: l => if y = x then 0 else idxOfStr x l + 1

/-- `set(course_history_df[student_id == sid]['course_id'].tolist())`
materialised as a list: the student's distinct course ids.  (Python set
iteration order is implementation defined; only membership, size, and the
incidental "last element" are ever used.) -/
def studentCourseSet (hist : List HistoryRecord) (sid : String) : List String :=
  firstUnique ((hist.filter (fun r => r.student_id = sid)).map (·.course_id))

/-- One per-student result dictionary of `evaluate`. -/
structure EvalRow where
  student_id : String
  hit : Bool
  rank : Option ℕ
  precision_at_5 : ℕ
  precision_at_10 : ℕ
deriving Inhabited, DecidableEq, Repr

/-- Return value of `evaluate`: either the structured error dictionary or
the metrics dictionary. -/
inductive EvalOutcome where
  | err (msg : String)
  | metrics (hit_rate precision_at_5 precision_at_10 mrr : ℚ) (num_test_students : ℕ)
deriving DecidableEq, Repr

/-- The per-student loop of `evaluate` (lines 588–644).  Students with fewer
than two distinct historical courses are skipped.  `recFn sid hidden` stands
for the course-id list of the 20 content-based recommendations computed by
the temporary recommender rebuilt from the history with the held-out
(student, hidden-course) records removed (lines 601–625); it is a parameter
because that rebuild refits the scikit-learn vectorizer. -/
def evalRows (hist : List HistoryRecord) (recFn : String → String → List String) :
    List String → List EvalRow
  | [] => []
  | sid :: rest =>
    let scs := studentCourseSet hist sid
    if scs.length < 2 then evalRows hist recFn rest
    else
      let test_course := scs.getLastD ""
      let rec_courses := recFn sid test_course
      (if test_course ∈ rec_courses then
        let rank := idxOfStr test_course rec_courses + 1
        ⟨sid, true, some rank, if rank ≤ 5 then 1 else 0, if rank ≤ 10 then 1 else 0⟩
      else ⟨sid, false, none, 0, 0⟩) :: evalRows hist recFn rest

/-- `evaluate(test_student_ids)` (the explicit-cohort path; the default
cohort is a seeded random 20% sample, external to this embedding): runs the
per-student loop, returns the structured error when no results were
collected, else the aggregated metrics. -/
def evaluate (hist : List HistoryRecord) (recFn : String → String → List String)
    (test_ids : List String) : EvalOutcome :=
  let results := evalRows hist recFn test_ids
  if results.isEmpty then EvalOutcome.err "No suitable test students found"
  else
    EvalOutcome.metrics
      ((results.map (fun r => if r.hit then (1 : ℚ) else 0)).sum / results.length)
      ((results.map (fun r => (r.precision_at_5 : ℚ))).sum / results.length)
      ((results.map (fun r => (r.precision_at_10 : ℚ))).sum / results.length)
      ((results.map (fun r => match r.rank with | some k => (1 : ℚ) / k | none => 0)).sum
        / results.length)
      results.length

/-- Dot product of two vectors, truncating to the shorter length (the
embedded vectors always have equal length). -/
def dotP (x y : List ℝ) : ℝ := (List.zipWith (fun a b => a * b) x y).sum

/-- Exact-real cosine similarity as scikit-learn computes it in
`cosine_similarity`: normalised dot product.  A zero vector is left as zero
by scikit-learn's normalisation, so its similarity is 0 — matching Lean's
0/0 = 0 convention. -/
noncomputable def cosineSimR (x y : List ℝ) : ℝ :=
  dotP x y / (Real.sqrt (dotP x x) * Real.sqrt (dotP y y))

/-- The course×course similarity matrix computed at line 113:
`cosine_similarity(course_content_matrix)`, over the TF-IDF row vectors. -/
noncomputable def courseSimilarityMatrixR (rows : List (List ℝ)) (i j : ℕ) : ℝ :=
  cosineSimR (rows.getD i []) (rows.getD j [])

/-- Concrete course used by the witness models. -/
def wCourseA : Course :=
  ⟨"a", "A101", "Algorithms", "CS", "intro algorithms", 3, 100, "introductory", [], ["algo"]⟩

/-- Concrete course with a prerequisite, used by the witness models. -/
def wCourseB : Course :=
  ⟨"b", "B201", "Machine Learning", "CS", "ml course", 3, 100, "advanced", ["a"], ["ml"]⟩

/-- Concrete student used by the witness models. -/
def wStudent1 : Student := ⟨"s1", "CS", "CS", 1, 3.5, ["algo"]⟩

/-- Witness model: one student, one course, no history. -/
def Wm0 : TrainedModel := ⟨[wCourseA], [wStudent1], [], fun _ => [1], [[1]]⟩

/-- Witness model: student `s1` has taken course `a` (rated 4); course `b`
has prerequisite `a`. -/
def Wm : TrainedModel :=
  ⟨[wCourseA, wCourseB], [wStudent1], [⟨"s1", "a", "t1", 4, some 4⟩],
    fun _ => [1, 1], [[1, 0.3], [0.3, 1]]⟩

/-- The recommendation record `recommend_courses` produces on `Wm0`. -/
def wRecA : RecOut :=
  ⟨"a", "Algorithms", "A101", "CS", 3, "introductory", "intro algorithms", some 0, 48, ["algo"]⟩

/-- The recommendation record `recommend_courses` produces on `Wm`. -/
def wRecB : RecOut :=
  ⟨"b", "Machine Learning", "B201", "CS", 3, "advanced", "ml course", some 0, 52, ["ml"]⟩
/-- Witness model for the zero-signal collaborative cases: the single
history record has grade 0 and no rating, so the interaction row sums to
zero. -/
def W7 : TrainedModel :=
  ⟨[wCourseA], [wStudent1], [⟨"s1", "a", "t1", 0, none⟩], fun _ => [1], [[1]]⟩

/-- C4 counterexample: a record with no rating and grade value 0 is stored as
interaction value 0, which lies outside every 1–5 range, so the "linearly
rescaled to a 1–5 range" reading of the spec is false on the code (the code
computes `grade_value / 4 * 5`, a rescale onto 0–5). -/
theorem grade_rescale_counterexample :
    matrixCell [⟨"s1", "c1", "t1", 0, none⟩] "s1" "c1" = 0 ∧
    ¬ (1 ≤ matrixCell [⟨"s1", "c1", "t1", 0, none⟩] "s1" "c1") := by
  norm_num [matrixCell, pairRecords, interactionValue, List.filter]

/-- C4 (amended): for a (student, course) pair with a single history record,
the stored matrix cell is the record's rating when present, and otherwise the
letter grade multiplied by 5/4, i.e. linearly rescaled from the 0–4 grade
scale onto a 0–5 range. -/
theorem matrixCell_single_record (hist : List HistoryRecord) (s c : String)
    (r : HistoryRecord) (h : pairRecords hist s c = [r]) :
    matrixCell hist s c = match r.student_rating with
      | some v => v
      | none => r.grade_value / 4 * 5 := by
  unfold matrixCell
  rw [h]
  cases hr : r.student_rating <;> simp [interactionValue, hr]

/-- C4 witness: concrete instances of `matrixCell_single_record`, one record
with a rating and one without. -/
theorem matrixCell_single_record_witness :
    matrixCell [⟨"s1", "c1", "t1", 3, some 4⟩] "s1" "c1" = 4 ∧
    matrixCell [⟨"s1", "c1", "t1", 2, none⟩] "s1" "c1" = 5/2 := by
  constructor
  · have h := matrixCell_single_record [⟨"s1", "c1", "t1", 3, some 4⟩] "s1" "c1"
      ⟨"s1", "c1", "t1", 3, some 4⟩ (by simp [pairRecords, List.filter])
    simpa using h
  · have h := matrixCell_single_record [⟨"s1", "c1", "t1", 2, none⟩] "s1" "c1"
      ⟨"s1", "c1", "t1", 2, none⟩ (by simp [pairRecords, List.filter])
    rw [h]
    norm_num

/-- C10: when a student has two history records for the same course, the
matrix cell is the arithmetic mean of the two per-record interaction values;
in particular when the two values differ it is neither the later record's
value nor the maximum. -/
theorem matrixCell_retake_mean (s c : String) (r1 r2 : HistoryRecord)
    (h1 : r1.student_id = s) (h2 : r1.course_id = c)
    (h3 : r2.student_id = s) (h4 : r2.course_id = c) :
    matrixCell [r1, r2] s c = (interactionValue r1 + interactionValue r2) / 2 ∧
    (interactionValue r1 < interactionValue r2 →
      matrixCell [r1, r2] s c ≠ interactionValue r2 ∧
      matrixCell [r1, r2] s c ≠ max (interactionValue r1) (interactionValue r2)) := by
  have hcell : matrixCell [r1, r2] s c = (interactionValue r1 + interactionValue r2) / 2 := by
    unfold matrixCell
    have : pairRecords [r1, r2] s c = [r1, r2] := by
      simp [pairRecords, List.filter, h1, h2, h3, h4]
    rw [this]
    norm_num
  refine ⟨hcell, fun hlt => ⟨?_, ?_⟩⟩
  · rw [hcell]; intro hc; nlinarith
  · rw [hcell, max_eq_right hlt.le]; intro hc; nlinarith

/-- C10 witness: a retake with interaction values 2 and 4 is stored as 3. -/
theorem matrixCell_retake_mean_witness :
    matrixCell [⟨"s1", "c1", "t1", 0, some 2⟩, ⟨"s1", "c1", "t2", 0, some 4⟩] "s1" "c1" = 3 ∧
    matrixCell [⟨"s1", "c1", "t1", 0, some 2⟩, ⟨"s1", "c1", "t2", 0, some 4⟩] "s1" "c1" ≠ 4 := by
  have h := matrixCell_retake_mean "s1" "c1"
    ⟨"s1", "c1", "t1", 0, some 2⟩ ⟨"s1", "c1", "t2", 0, some 4⟩ rfl rfl rfl rfl
  have hv1 : interactionValue ⟨"s1", "c1", "t1", 0, some 2⟩ = 2 := rfl
  have hv2 : interactionValue ⟨"s1", "c1", "t2", 0, some 4⟩ = 4 := rfl
  constructor
  · rw [h.1, hv1, hv2]; norm_num
  · have := (h.2 (by rw [hv1, hv2]; norm_num)).1
    rwa [hv2] at this


theorem foldl_invariant {α β : Type} (f : β → α → β) (P : β → Prop)
    (l : List α) (b : β) (hb : P b) (hf : ∀ b' a, a ∈ l → P b' → P (f b' a)) :
    P (l.foldl f b) := by
  induction l generalizing b with
  | nil => exact hb
  | cons x xs ih =>
    exact ih (f b x) (hf b x (by simp) hb) (fun b' a ha hb' => hf b' a (by simp [ha]) hb')

theorem mem_insertByDesc {p q : String × ℚ} {l : List (String × ℚ)} :
    q ∈ insertByDesc p l ↔ q = p ∨ q ∈ l := by
  induction l with
  | nil => simp [insertByDesc]
  | cons x xs ih =>
    by_cases h : x.2 ≤ p.2
    · simp [insertByDesc, h]
    · simp [insertByDesc, h, ih]
      tauto

theorem mem_sortByScoreDesc {q : String × ℚ} {l : List (String × ℚ)} :
    q ∈ sortByScoreDesc l ↔ q ∈ l := by
  induction l with
  | nil => simp [sortByScoreDesc]
  | cons x xs ih =>
    simp only [sortByScoreDesc, List.foldr_cons] at *
    simp [mem_insertByDesc, ih]

theorem mem_firstUniqueGo {x : String} : ∀ {l seen : List String},
    x ∈ firstUniqueGo l seen ↔ x ∈ l ∧ x ∉ seen := by
  intro l
  induction l with
  | nil => intro seen; simp [firstUniqueGo]
  | cons y ys ih =>
    intro seen
    by_cases h : y ∈ seen
    · simp only [firstUniqueGo, if_pos h, ih, List.mem_cons]
      constructor
      · tauto
      · rintro ⟨hy | hy, hs⟩
        · exact absurd (hy ▸ h) hs
        · exact ⟨hy, hs⟩
    · simp only [firstUniqueGo, if_neg h, List.mem_cons, ih, List.mem_cons]
      by_cases hxy : x = y
      · subst hxy; tauto
      · tauto

theorem mem_firstUnique {x : String} {l : List String} :
    x ∈ firstUnique l ↔ x ∈ l := by
  simp [firstUnique, mem_firstUniqueGo]

theorem mem_insertAsc {x s : String} {l : List String} :
    x ∈ insertAsc s l ↔ x = s ∨ x ∈ l := by
  induction l with
  | nil => simp [insertAsc]
  | cons y ys ih =>
    by_cases h : strLe s y
    · simp [insertAsc, h]
    · simp [insertAsc, h, ih]
      tauto

theorem mem_sortStrings {x : String} {l : List String} :
    x ∈ sortStrings l ↔ x ∈ l := by
  induction l with
  | nil => simp [sortStrings]
  | cons y ys ih =>
    simp only [sortStrings, List.foldr_cons] at *
    simp [mem_insertAsc, ih]

theorem mem_matrixIndex {hist : List HistoryRecord} {sid : String} :
    sid ∈ matrixIndex hist ↔ ∃ r ∈ hist, r.student_id = sid := by
  simp [matrixIndex, mem_sortStrings, mem_firstUnique, eq_comm]

theorem lookupQ_nil {k : String} : lookupQ [] k = none := rfl

theorem lookupQ_cons {p : String × ℚ} {d : List (String × ℚ)} {k : String} :
    lookupQ (p :: d) k = if p.1 = k then some p.2 else lookupQ d k := by
  by_cases h : p.1 = k <;> simp [lookupQ, List.find?_cons, h]

theorem lookupQ_eq_none {d : List (String × ℚ)} {k : String} :
    lookupQ d k = none ↔ ∀ p ∈ d, p.1 ≠ k := by
  simp [lookupQ, List.find?_eq_none]

theorem lookupQ_dictSet (d : List (String × ℚ)) (k : String) (v : ℚ) (k' : String) :
    lookupQ (dictSet d k v) k' = if k = k' then some v else lookupQ d k' := by
  induction d with
  | nil => by_cases h : k = k' <;> simp [dictSet, lookupQ_cons, lookupQ_nil, h]
  | cons p d ih =>
    by_cases hp : p.1 = k
    · rw [dictSet, if_pos hp]
      by_cases h : k = k'
      · simp [lookupQ_cons, hp, h]
      · simp [lookupQ_cons, hp.symm ▸ h, h, hp]
    · rw [dictSet, if_neg hp]
      by_cases h : k = k'
      · subst h
        simp [lookupQ_cons, hp, ih]
      · by_cases hp' : p.1 = k'
        · simp [lookupQ_cons, hp', ih, h]
        · simp [lookupQ_cons, hp', ih, h]

theorem lookupQ_dictAdd (d : List (String × ℚ)) (k : String) (v : ℚ) (k' : String) :
    lookupQ (dictAdd d k v) k' =
      if k = k' then some ((lookupQ d k).getD 0 + v) else lookupQ d k' := by
  induction d with
  | nil =>
    by_cases h : k = k' <;> simp [dictAdd, lookupQ_cons, lookupQ_nil, h]
  | cons p d ih =>
    by_cases hp : p.1 = k
    · rw [dictAdd, if_pos hp]
      by_cases h : k = k'
      · simp [lookupQ_cons, hp, h]
      · simp [lookupQ_cons, hp.symm ▸ h, h, hp]
    · rw [dictAdd, if_neg hp]
      by_cases h : k = k'
      · subst h
        simp [lookupQ_cons, hp, ih]
      · by_cases hp' : p.1 = k'
        · simp [lookupQ_cons, hp', ih, h]
        · simp [lookupQ_cons, hp', ih, h]

theorem keys_dictSet_subset {d : List (String × ℚ)} {k : String} {v : ℚ} {x : String}
    (h : x ∈ (dictSet d k v).map Prod.fst) : x = k ∨ x ∈ d.map Prod.fst := by
  induction d with
  | nil =>
    rw [dictSet, List.map_cons, List.mem_cons] at h
    rcases h with h | h
    · exact Or.inl h
    · simp at h
  | cons p d ih =>
    by_cases hp : p.1 = k
    · rw [dictSet, if_pos hp] at h
      rw [List.map_cons, List.mem_cons] at h
      rw [List.map_cons, List.mem_cons]
      tauto
    · rw [dictSet, if_neg hp] at h
      rw [List.map_cons, List.mem_cons] at h
      rw [List.map_cons, List.mem_cons]
      rcases h with h | h
      · exact Or.inr (Or.inl h)
      · rcases ih h with h' | h'
        · exact Or.inl h'
        · exact Or.inr (Or.inr h')

theorem keys_dictAdd_subset {d : List (String × ℚ)} {k : String} {v : ℚ} {x : String}
    (h : x ∈ (dictAdd d k v).map Prod.fst) : x = k ∨ x ∈ d.map Prod.fst := by
  induction d with
  | nil =>
    rw [dictAdd, List.map_cons, List.mem_cons] at h
    rcases h with h | h
    · exact Or.inl h
    · simp at h
  | cons p d ih =>
    by_cases hp : p.1 = k
    · rw [dictAdd, if_pos hp] at h
      rw [List.map_cons, List.mem_cons] at h
      rw [List.map_cons, List.mem_cons]
      tauto
    · rw [dictAdd, if_neg hp] at h
      rw [List.map_cons, List.mem_cons] at h
      rw [List.map_cons, List.mem_cons]
      rcases h with h | h
      · exact Or.inr (Or.inl h)
      · rcases ih h with h' | h'
        · exact Or.inl h'
        · exact Or.inr (Or.inr h')

theorem keys_nodup_dictSet {d : List (String × ℚ)} {k : String} {v : ℚ}
    (h : (d.map Prod.fst).Nodup) : ((dictSet d k v).map Prod.fst).Nodup := by
  induction d with
  | nil => simp [dictSet]
  | cons p d ih =>
    rw [List.map_cons, List.nodup_cons] at h
    by_cases hp : p.1 = k
    · rw [dictSet, if_pos hp, List.map_cons, List.nodup_cons]
      exact ⟨h.1, h.2⟩
    · rw [dictSet, if_neg hp, List.map_cons, List.nodup_cons]
      refine ⟨fun hc => ?_, ih h.2⟩
      rcases keys_dictSet_subset hc with h' | h'
      · exact hp h'
      · exact h.1 h'

theorem keys_nodup_dictAdd {d : List (String × ℚ)} {k : String} {v : ℚ}
    (h : (d.map Prod.fst).Nodup) : ((dictAdd d k v).map Prod.fst).Nodup := by
  induction d with
  | nil => simp [dictAdd]
  | cons p d ih =>
    rw [List.map_cons, List.nodup_cons] at h
    by_cases hp : p.1 = k
    · rw [dictAdd, if_pos hp, List.map_cons, List.nodup_cons]
      exact ⟨h.1, h.2⟩
    · rw [dictAdd, if_neg hp, List.map_cons, List.nodup_cons]
      refine ⟨fun hc => ?_, ih h.2⟩
      rcases keys_dictAdd_subset hc with h' | h'
      · exact hp h'
      · exact h.1 h'

theorem lookupQ_of_mem {d : List (String × ℚ)} {p : String × ℚ}
    (hd : (d.map Prod.fst).Nodup) (h : p ∈ d) : lookupQ d p.1 = some p.2 := by
  induction d with
  | nil => simp at h
  | cons q d ih =>
    rw [List.map_cons, List.nodup_cons] at hd
    rcases List.mem_cons.mp h with h | h
    · subst h
      simp [lookupQ_cons]
    · have hq : q.1 ≠ p.1 := by
        intro hc
        exact hd.1 (hc ▸ List.mem_map_of_mem Prod.fst h)
      rw [lookupQ_cons, if_neg hq]
      exact ih hd.2 h

theorem values_nonneg_dictSet {d : List (String × ℚ)} {k : String} {v : ℚ}
    (hd : ∀ q ∈ d, 0 ≤ q.2) (hv : 0 ≤ v) : ∀ q ∈ dictSet d k v, 0 ≤ q.2 := by
  induction d with
  | nil => simpa [dictSet] using hv
  | cons p d ih =>
    intro q hq
    by_cases hp : p.1 = k
    · rw [dictSet, if_pos hp] at hq
      rcases List.mem_cons.mp hq with h | h
      · simpa [h] using hv
      · exact hd q (List.mem_cons_of_mem _ h)
    · rw [dictSet, if_neg hp] at hq
      rcases List.mem_cons.mp hq with h | h
      · exact h ▸ hd p (by simp)
      · exact ih (fun q' hq' => hd q' (List.mem_cons_of_mem _ hq')) q h

theorem values_nonneg_dictAdd {d : List (String × ℚ)} {k : String} {v : ℚ}
    (hd : ∀ q ∈ d, 0 ≤ q.2) (hv : 0 ≤ v) : ∀ q ∈ dictAdd d k v, 0 ≤ q.2 := by
  induction d with
  | nil => simpa [dictAdd] using hv
  | cons p d ih =>
    intro q hq
    by_cases hp : p.1 = k
    · rw [dictAdd, if_pos hp] at hq
      rcases List.mem_cons.mp hq with h | h
      · have := hd p (by simp)
        simp [h]
        positivity
      · exact hd q (List.mem_cons_of_mem _ h)
    · rw [dictAdd, if_neg hp] at hq
      rcases List.mem_cons.mp hq with h | h
      · exact h ▸ hd p (by simp)
      · exact ih (fun q' hq' => hd q' (List.mem_cons_of_mem _ hq')) q h

theorem lookupQ_foldContent (taken : List String) (cid : String) :
    ∀ (content : List (String × ℚ)) (d : List (String × ℚ)),
    (content.map Prod.fst).Nodup →
    lookupQ (content.foldl
        (fun d p => if p.1 ∈ taken then d else dictSet d p.1 (p.2 * 0.4)) d) cid =
      match lookupQ content cid with
      | some s => if cid ∈ taken then lookupQ d cid else some (s * 0.4)
      | none => lookupQ d cid := by
  intro content
  induction content with
  | nil => intro d _; simp [lookupQ_nil]
  | cons p rest ih =>
    intro d hn
    rw [List.map_cons, List.nodup_cons] at hn
    rw [List.foldl_cons, ih _ hn.2]
    by_cases hp : p.1 = cid
    · have hrest : lookupQ rest cid = none := by
        rw [lookupQ_eq_none]
        intro q hq hc
        exact hn.1 (hp ▸ hc ▸ List.mem_map_of_mem Prod.fst hq)
      simp only [hrest, lookupQ_cons, if_pos hp]
      by_cases ht : cid ∈ taken
      · have htp : p.1 ∈ taken := by rwa [hp]
        simp [htp, ht]
      · have htp : p.1 ∉ taken := by rwa [hp]
        simp [htp, ht, lookupQ_dictSet, hp]
    · rw [lookupQ_cons, if_neg hp]
      have hbase : lookupQ (if p.1 ∈ taken then d else dictSet d p.1 (p.2 * 0.4)) cid
          = lookupQ d cid := by
        by_cases ht : p.1 ∈ taken
        · rw [if_pos ht]
        · rw [if_neg ht, lookupQ_dictSet, if_neg hp]
      cases hrest : lookupQ rest cid with
      | none => simp only [hrest]; exact hbase
      | some s => simp only [hrest]; rw [hbase]

theorem lookupQ_foldCollab (taken : List String) (cid : String) :
    ∀ (collab : List (String × ℚ)) (d : List (String × ℚ)),
    (collab.map Prod.fst).Nodup →
    lookupQ (collab.foldl
        (fun d p => if p.1 ∈ taken then d else dictAdd d p.1 (p.2 * 0.6)) d) cid =
      match lookupQ collab cid with
      | some s => if cid ∈ taken then lookupQ d cid
                  else some ((lookupQ d cid).getD 0 + s * 0.6)
      | none => lookupQ d cid := by
  intro collab
  induction collab with
  | nil => intro d _; simp [lookupQ_nil]
  | cons p rest ih =>
    intro d hn
    rw [List.map_cons, List.nodup_cons] at hn
    rw [List.foldl_cons, ih _ hn.2]
    by_cases hp : p.1 = cid
    · have hrest : lookupQ rest cid = none := by
        rw [lookupQ_eq_none]
        intro q hq hc
        exact hn.1 (hp ▸ hc ▸ List.mem_map_of_mem Prod.fst hq)
      simp only [hrest, lookupQ_cons, if_pos hp]
      by_cases ht : cid ∈ taken
      · have htp : p.1 ∈ taken := by rwa [hp]
        simp [htp, ht]
      · have htp : p.1 ∉ taken := by rwa [hp]
        simp [htp, ht, lookupQ_dictAdd, hp]
    · rw [lookupQ_cons, if_neg hp]
      have hbase : lookupQ (if p.1 ∈ taken then d else dictAdd d p.1 (p.2 * 0.6)) cid
          = lookupQ d cid := by
        by_cases ht : p.1 ∈ taken
        · rw [if_pos ht]
        · rw [if_neg ht, lookupQ_dictAdd, if_neg hp]
      cases hrest : lookupQ rest cid with
      | none => simp only [hrest]; exact hbase
      | some s => simp only [hrest]; rw [hbase]

theorem mergedRecs_lookup (content collab : List (String × ℚ)) (taken : List String)
    (cid : String) (hc : (content.map Prod.fst).Nodup) (hb : (collab.map Prod.fst).Nodup) :
    lookupQ (mergedRecs content collab taken) cid =
      if cid ∈ taken then none
      else match lookupQ content cid, lookupQ collab cid with
        | none, none => none
        | some a, none => some (a * 0.4)
        | none, some b => some (b * 0.6)
        | some a, some b => some (a * 0.4 + b * 0.6) := by
  unfold mergedRecs
  rw [lookupQ_foldCollab taken cid collab _ hb, lookupQ_foldContent taken cid content _ hc]
  cases hcon : lookupQ content cid with
  | none =>
    cases hcol : lookupQ collab cid with
    | none =>
      by_cases ht : cid ∈ taken <;> simp [lookupQ_nil, ht]
    | some b =>
      by_cases ht : cid ∈ taken <;> simp [lookupQ_nil, ht]
  | some a =>
    cases hcol : lookupQ collab cid with
    | none =>
      by_cases ht : cid ∈ taken <;> simp [lookupQ_nil, ht]
    | some b =>
      by_cases ht : cid ∈ taken <;> simp [lookupQ_nil, ht]

theorem mergedRecs_keys_nodup (content collab : List (String × ℚ)) (taken : List String) :
    ((mergedRecs content collab taken).map Prod.fst).Nodup := by
  unfold mergedRecs
  refine foldl_invariant _ (fun d : List (String × ℚ) => (d.map Prod.fst).Nodup) collab _ ?_ ?_
  · refine foldl_invariant _ (fun d : List (String × ℚ) => (d.map Prod.fst).Nodup) content _ ?_ ?_
    · simp
    · intro d p _ hd
      by_cases ht : p.1 ∈ taken
      · simpa [ht] using hd
      · simpa [ht] using keys_nodup_dictSet hd
  · intro d p _ hd
    by_cases ht : p.1 ∈ taken
    · simpa [ht] using hd
    · simpa [ht] using keys_nodup_dictAdd hd

theorem mergedRecs_key_mem (content collab : List (String × ℚ)) (taken : List String) :
    ∀ p ∈ mergedRecs content collab taken,
      p.1 ∈ content.map Prod.fst ∨ p.1 ∈ collab.map Prod.fst := by
  unfold mergedRecs
  refine foldl_invariant _
    (fun d : List (String × ℚ) => ∀ p ∈ d, p.1 ∈ content.map Prod.fst ∨ p.1 ∈ collab.map Prod.fst) collab _ ?_ ?_
  · refine foldl_invariant _
      (fun d : List (String × ℚ) => ∀ p ∈ d, p.1 ∈ content.map Prod.fst ∨ p.1 ∈ collab.map Prod.fst) content _ ?_ ?_
    · simp
    · intro d q hq hd p hp
      by_cases ht : q.1 ∈ taken
      · exact hd p (by simpa [ht] using hp)
      · rw [if_neg ht] at hp
        rcases keys_dictSet_subset (List.mem_map_of_mem Prod.fst hp) with h | h
        · exact Or.inl (h ▸ List.mem_map_of_mem Prod.fst hq)
        · rcases List.mem_map.mp h with ⟨a, ha, hak⟩
          exact hak ▸ hd a ha
  · intro d q hq hd p hp
    by_cases ht : q.1 ∈ taken
    · exact hd p (by simpa [ht] using hp)
    · rw [if_neg ht] at hp
      rcases keys_dictAdd_subset (List.mem_map_of_mem Prod.fst hp) with h | h
      · exact Or.inr (h ▸ List.mem_map_of_mem Prod.fst hq)
      · rcases List.mem_map.mp h with ⟨a, ha, hak⟩
        exact hak ▸ hd a ha

theorem mergedRecs_values_nonneg (content collab : List (String × ℚ)) (taken : List String)
    (hcon : ∀ p ∈ content, 0 ≤ p.2) (hcol : ∀ p ∈ collab, 0 ≤ p.2) :
    ∀ p ∈ mergedRecs content collab taken, 0 ≤ p.2 := by
  unfold mergedRecs
  refine foldl_invariant _ (fun d : List (String × ℚ) => ∀ p ∈ d, 0 ≤ p.2) collab _ ?_ ?_
  · refine foldl_invariant _ (fun d : List (String × ℚ) => ∀ p ∈ d, 0 ≤ p.2) content _ ?_ ?_
    · simp
    · intro d q hq hd p hp
      by_cases ht : q.1 ∈ taken
      · exact hd p (by simpa [ht] using hp)
      · rw [if_neg ht] at hp
        exact values_nonneg_dictSet hd (mul_nonneg (hcon q hq) (by norm_num)) p hp
  · intro d q hq hd p hp
    by_cases ht : q.1 ∈ taken
    · exact hd p (by simpa [ht] using hp)
    · rw [if_neg ht] at hp
      exact values_nonneg_dictAdd hd (mul_nonneg (hcol q hq) (by norm_num)) p hp

theorem filterCandidates_spec (m : TrainedModel) (taken : List String) (dfilter : Option String)
    (year : ℕ) : ∀ (l out : List (String × ℚ)),
    filterCandidates m taken dfilter year l = Except.ok out →
    ∀ p ∈ out, ∃ q ∈ l, q.1 = p.1 ∧ ∃ course,
      m.courses.find? (fun k => k.course_id = q.1) = some course ∧
      difficultySkip dfilter course = false ∧
      (∀ x ∈ course.prerequisites, x ∈ taken) ∧
      p.2 = q.2 * 0.6 + (popularityScore m.courses m.history q.1 * 0.2) * 0.2
        + levelMatch course year * 0.2 := by
  intro l
  induction l with
  | nil =>
    intro out h p hp
    rw [filterCandidates] at h
    cases h
    simp at hp
  | cons q rest ih =>
    intro out h p hp
    rw [filterCandidates] at h
    split at h
    · cases h
    · rename_i course hfind
      split at h
      · rename_i hskip
        obtain ⟨q', hq', hqp, rest'⟩ := ih out h p hp
        exact ⟨q', List.mem_cons_of_mem _ hq', hqp, rest'⟩
      · rename_i hskip
        split at h
        · rename_i hpre
          cases hrec : filterCandidates m taken dfilter year rest with
          | error e => rw [hrec] at h; simp [Except.map] at h
          | ok out' =>
            rw [hrec] at h
            simp only [Except.map] at h
            cases h
            rcases List.mem_cons.mp hp with hp | hp
            · refine ⟨q, by simp, by rw [hp], course, hfind, ?_, ?_, by rw [hp]⟩
              · exact Bool.not_eq_true _ ▸ Bool.of_not_eq_true hskip
              · intro x hx
                have := List.all_eq_true.mp hpre x hx
                simpa using this
            · obtain ⟨q', hq', hqp, rest'⟩ := ih out' hrec p hp
              exact ⟨q', List.mem_cons_of_mem _ hq', hqp, rest'⟩
        · rename_i hpre
          obtain ⟨q', hq', hqp, rest'⟩ := ih out h p hp
          exact ⟨q', List.mem_cons_of_mem _ hq', hqp, rest'⟩

theorem filterCandidates_ok (m : TrainedModel) (taken : List String) (dfilter : Option String)
    (year : ℕ) : ∀ l : List (String × ℚ),
    (∀ p ∈ l, (m.courses.find? (fun k => k.course_id = p.1)).isSome) →
    ∃ out, filterCandidates m taken dfilter year l = Except.ok out := by
  intro l
  induction l with
  | nil => intro _; exact ⟨[], rfl⟩
  | cons q rest ih =>
    intro hall
    obtain ⟨course, hfind⟩ := Option.isSome_iff_exists.mp (hall q (by simp))
    obtain ⟨out', hout'⟩ := ih (fun p hp => hall p (List.mem_cons_of_mem _ hp))
    rw [filterCandidates, hfind]
    cases hskip : difficultySkip dfilter course with
    | true => exact ⟨out', by simp [hskip, hout']⟩
    | false =>
      cases hpre : course.prerequisites.all (fun x => decide (x ∈ taken)) with
      | false => exact ⟨out', by simp [hskip, hpre, hout']⟩
      | true =>
        refine ⟨(q.1, q.2 * 0.6 + (popularityScore m.courses m.history q.1 * 0.2) * 0.2
          + levelMatch course year * 0.2) :: out', ?_⟩
        simp [hskip, hpre, hout', Except.map]

theorem formatRecs_spec (m : TrainedModel) : ∀ (top : List (String × ℚ)) (recs : List RecOut),
    formatRecs m top = Except.ok recs →
    ∀ r ∈ recs, ∃ p ∈ top, r.courseId = p.1 ∧
      r.rating = fmtRating (avgRatingCol m.history p.1) ∧
      r.matchScore = min (pyRound (p.2 * 100)) 100 := by
  intro top
  induction top with
  | nil =>
    intro recs h r hr
    rw [formatRecs] at h
    cases h
    simp at hr
  | cons p rest ih =>
    intro recs h r hr
    rw [formatRecs] at h
    split at h
    · cases h
    · rename_i course hfind
      cases hrec : formatRecs m rest with
      | error e => rw [hrec] at h; simp [Except.map] at h
      | ok recs' =>
        rw [hrec] at h
        simp only [Except.map] at h
        cases h
        rcases List.mem_cons.mp hr with hr | hr
        · exact ⟨p, by simp, by rw [hr], by rw [hr], by rw [hr]⟩
        · obtain ⟨p', hp', rest'⟩ := ih recs' hrec r hr
          exact ⟨p', List.mem_cons_of_mem _ hp', rest'⟩

theorem formatRecs_ok (m : TrainedModel) : ∀ top : List (String × ℚ),
    (∀ p ∈ top, (m.courses.find? (fun k => k.course_id = p.1)).isSome) →
    ∃ recs, formatRecs m top = Except.ok recs := by
  intro top
  induction top with
  | nil => intro _; exact ⟨[], rfl⟩
  | cons p rest ih =>
    intro hall
    obtain ⟨course, hfind⟩ := Option.isSome_iff_exists.mp (hall p (by simp))
    obtain ⟨recs', hrecs'⟩ := ih (fun q hq => hall q (List.mem_cons_of_mem _ hq))
    refine ⟨(⟨p.1, course.course_name, course.course_code, course.department,
      course.credits, course.difficulty, course.description,
      fmtRating (avgRatingCol m.history p.1), min (pyRound (p.2 * 100)) 100,
      course.keywords⟩ : RecOut) :: recs', ?_⟩
    rw [formatRecs, hfind, hrecs']
    rfl

theorem recommend_courses_ok (m : TrainedModel) (simFn : List ℚ → List ℚ → ℚ) (sid : String)
    (limit : ℕ) (ex : Bool) (df : Option String) (recs : List RecOut)
    (h : recommend_courses m simFn sid limit ex df = Except.ok recs) :
    ∃ student, m.students.find? (fun s => s.student_id = sid) = some student ∧
    ∃ filtered,
      filterCandidates m (takenCourses m.history sid ex) df student.year_of_study
        (mergedRecs (getContentBased m sid student.topic_interests student.department (limit * 2))
          (collabRecsUsed m simFn sid limit) (takenCourses m.history sid ex))
        = Except.ok filtered ∧
      formatRecs m ((sortByScoreDesc filtered).take limit) = Except.ok recs := by
  rw [recommend_courses] at h
  split at h
  · cases h
  · rename_i student hstud
    simp only [] at h
    split at h
    · cases h
    · rename_i filtered hfc
      exact ⟨student, hstud, filtered, hfc, h⟩

theorem mem_of_mem_zipWith {f : ℚ → ℚ → ℚ} {x : ℚ} :
    ∀ {as bs : List ℚ}, x ∈ List.zipWith f as bs → ∃ a ∈ as, ∃ b ∈ bs, x = f a b := by
  intro as
  induction as with
  | nil => intro bs h; simp at h
  | cons a as ih =>
    intro bs h
    cases bs with
    | nil => simp at h
    | cons b bs =>
      rw [List.zipWith_cons_cons] at h
      rcases List.mem_cons.mp h with h | h
      · exact ⟨a, by simp, b, by simp, h⟩
      · obtain ⟨a', ha', b', hb', hx⟩ := ih h
        exact ⟨a', List.mem_cons_of_mem _ ha', b', List.mem_cons_of_mem _ hb', hx⟩

theorem getD_nonneg {l : List ℚ} (h : ∀ x ∈ l, 0 ≤ x) (n : ℕ) : 0 ≤ l.getD n 0 := by
  rcases Nat.lt_or_ge n l.length with hn | hn
  · have : l.getD n 0 = l.get ⟨n, hn⟩ := by
      simp [List.getD]
      rw [List.getElem?_eq_getElem hn]
      rfl
    rw [this]
    exact h _ (l.get_mem _ _)
  · simp [List.getD, List.getElem?_eq_none hn]

theorem getD_row_cases (l : List (List ℚ)) (n : ℕ) : l.getD n [] ∈ l ∨ l.getD n [] = [] := by
  rcases Nat.lt_or_ge n l.length with hn | hn
  · left
    have : l.getD n [] = l.get ⟨n, hn⟩ := by
      simp [List.getD]
      rw [List.getElem?_eq_getElem hn]
      rfl
    rw [this]
    exact l.get_mem _ _
  · right
    simp [List.getD, List.getElem?_eq_none hn]

theorem addTakenSims_nonneg (m : TrainedModel) (base : List ℚ) (cs : List String)
    (hb : ∀ x ∈ base, 0 ≤ x)
    (hm : ∀ row ∈ m.course_similarity_matrix, ∀ x ∈ row, 0 ≤ x) :
    ∀ x ∈ addTakenSims m base cs, 0 ≤ x := by
  unfold addTakenSims
  refine foldl_invariant _ (fun s : List ℚ => ∀ x ∈ s, 0 ≤ x) cs base hb ?_
  intro s c _ hs x hx
  by_cases hc : m.courses.any (fun k => k.course_id = c)
  · rw [if_pos hc] at hx
    obtain ⟨a, ha, b, hb', hxab⟩ := mem_of_mem_zipWith hx
    have h0b : 0 ≤ b := by
      rcases getD_row_cases m.course_similarity_matrix
          (m.courses.findIdx (fun k => k.course_id = c)) with hrow | hrow
      · exact hm _ hrow b hb'
      · rw [hrow] at hb'; simp at hb'
    have h0a : 0 ≤ a := hs a ha
    rw [hxab]
    nlinarith
  · rw [if_neg hc] at hx
    exact hs x hx

theorem getContentBased_nonneg (m : TrainedModel) (sid : String) (interests : List String)
    (department : String) (limit : ℕ)
    (hq : ∀ x ∈ m.querySim (contentQueryText interests department), 0 ≤ x)
    (hm : ∀ row ∈ m.course_similarity_matrix, ∀ x ∈ row, 0 ≤ x) :
    ∀ p ∈ getContentBased m sid interests department limit, 0 ≤ p.2 := by
  intro p hp
  unfold getContentBased at hp
  have hp' := mem_sortByScoreDesc.mp (List.mem_of_mem_take hp)
  obtain ⟨i, _, hpi⟩ := List.mem_map.mp hp'
  have hsims := addTakenSims_nonneg m (m.querySim (contentQueryText interests department))
    (firstUnique ((m.history.filter (fun r => r.student_id = sid)).map (·.course_id))) hq hm
  have h0 := getD_nonneg hsims i
  rw [← hpi]
  exact h0

theorem getContentBased_key_find (m : TrainedModel) (sid : String) (interests : List String)
    (department : String) (limit : ℕ) :
    ∀ p ∈ getContentBased m sid interests department limit,
      (m.courses.find? (fun k => k.course_id = p.1)).isSome := by
  intro p hp
  unfold getContentBased at hp
  have hp' := mem_sortByScoreDesc.mp (List.mem_of_mem_take hp)
  obtain ⟨i, hi, hpi⟩ := List.mem_map.mp hp'
  have hilen : i < m.courses.length := List.mem_range.mp hi
  rw [List.find?_isSome]
  refine ⟨m.courses.get ⟨i, hilen⟩, m.courses.get_mem _ _, ?_⟩
  rw [← hpi]
  simp [List.getD, List.getElem?_eq_getElem hilen]

theorem similarStudents_nonneg (m : TrainedModel) (simFn : List ℚ → List ℚ → ℚ) (sid : String)
    (cols : List String) (sRow : List ℚ) (hs : ∀ a b, 0 ≤ simFn a b) :
    ∀ p ∈ similarStudents m simFn sid cols sRow, 0 ≤ p.2 := by
  unfold similarStudents
  refine foldl_invariant _ (fun d : List (String × ℚ) => ∀ p ∈ d, 0 ≤ p.2) _ _ (by simp) ?_
  intro d other _ hd p hp
  by_cases h1 : other = sid
  · rw [if_pos h1] at hp; exact hd p hp
  · rw [if_neg h1] at hp
    simp only [] at hp
    split at hp
    · split at hp
      · exact hd p hp
      · exact values_nonneg_dictSet hd (hs _ _) p hp
    · exact hd p hp

theorem collabScores_nonneg (m : TrainedModel) (sid : String) (cols : List String)
    (neighbors : List (String × ℚ)) (hnn : ∀ q ∈ neighbors, 0 ≤ q.2) :
    ∀ r ∈ neighbors.foldl (fun d p =>
      cols.foldl (fun d c =>
        if 3 < matrixCell m.history p.1 c ∧ matrixCell m.history sid c = 0 then
          dictAdd d c (p.2 * (matrixCell m.history p.1 c / 5))
        else d) d) [], 0 ≤ r.2 := by
  refine foldl_invariant _ (fun d : List (String × ℚ) => ∀ r ∈ d, 0 ≤ r.2)
    neighbors [] (by simp) ?_
  intro d q hqn hd
  refine foldl_invariant _ (fun d : List (String × ℚ) => ∀ r ∈ d, 0 ≤ r.2) cols d hd ?_
  intro d' c _ hd'
  by_cases hcond : 3 < matrixCell m.history q.1 c ∧ matrixCell m.history sid c = 0
  · rw [if_pos hcond]
    have hcell : (0 : ℚ) ≤ matrixCell m.history q.1 c :=
      le_of_lt (lt_trans (by norm_num) hcond.1)
    exact values_nonneg_dictAdd hd'
      (mul_nonneg (hnn q hqn) (div_nonneg hcell (by norm_num)))
  · rw [if_neg hcond]
    exact hd'

theorem getCollaborative_nonneg (m : TrainedModel) (simFn : List ℚ → List ℚ → ℚ) (sid : String)
    (limit : ℕ) (hs : ∀ a b, 0 ≤ simFn a b) :
    ∀ p ∈ getCollaborative m simFn sid limit, 0 ≤ p.2 := by
  intro p hp
  unfold getCollaborative at hp
  by_cases hidx : sid ∉ matrixIndex m.history
  · rw [if_pos hidx] at hp; simp at hp
  · rw [if_neg hidx] at hp
    simp only [] at hp
    have hp' := mem_sortByScoreDesc.mp (List.mem_of_mem_take hp)
    refine collabScores_nonneg m sid (matrixColumns m.history) _ ?_ p hp'
    intro q hq
    exact similarStudents_nonneg m simFn sid _ _ hs q
      (mem_sortByScoreDesc.mp (List.mem_of_mem_take hq))

theorem collabRecsUsed_nonneg (m : TrainedModel) (simFn : List ℚ → List ℚ → ℚ) (sid : String)
    (limit : ℕ) (hs : ∀ a b, 0 ≤ simFn a b) :
    ∀ p ∈ collabRecsUsed m simFn sid limit, 0 ≤ p.2 := by
  intro p hp
  unfold collabRecsUsed at hp
  by_cases h : sid ∈ matrixIndex m.history ∧ ¬ rowSum m.history sid = 0
  · rw [if_pos h] at hp
    exact getCollaborative_nonneg m simFn sid (limit * 2) hs p hp
  · rw [if_neg h] at hp
    simp at hp

theorem avgRatingFilled_nonneg (hist : List HistoryRecord) (c : String)
    (hr : ∀ r ∈ hist, ∀ v, r.student_rating = some v → 0 ≤ v) :
    0 ≤ avgRatingFilled hist c := by
  unfold avgRatingFilled avgRatingRaw
  cases he : (ratedRatings hist c).isEmpty
  · simp only [he, Bool.false_eq_true, if_false, Option.getD_some]
    apply div_nonneg
    · apply List.sum_nonneg
      intro v hv
      obtain ⟨r, hrmem, hrv⟩ := List.mem_filterMap.mp hv
      exact hr r (List.mem_of_mem_filter hrmem) v hrv
    · positivity
  · simp [he]

theorem popularityScore_nonneg (courses : List Course) (hist : List HistoryRecord) (c : String)
    (hr : ∀ r ∈ hist, ∀ v, r.student_rating = some v → 0 ≤ v) :
    0 ≤ popularityScore courses hist c := by
  unfold popularityScore
  have h1 : (0 : ℚ) ≤ 0.7 * (enrollmentCount hist c : ℚ) / (enrollmentMax courses hist : ℚ) := by
    apply div_nonneg
    · positivity
    · positivity
  have h2 : (0 : ℚ) ≤ 0.3 * avgRatingFilled hist c / 5 := by
    apply div_nonneg
    · have := avgRatingFilled_nonneg hist c hr
      linarith
    · norm_num
  linarith

theorem levelMatch_ge_one (course : Course) (year : ℕ) : 1 ≤ levelMatch course year := by
  unfold levelMatch
  split <;> norm_num

theorem pyRound_nonneg (q : ℚ) (h : 0 ≤ q) : 0 ≤ pyRound q := by
  have h0 : (0 : ℤ) ≤ ⌊q⌋ := Int.floor_nonneg.mpr h
  unfold pyRound
  split
  · exact h0
  · split
    · omega
    · split <;> omega

/-- C1: in `recommend_courses`, the merged score of every candidate course is
0.4 times its content-based score plus 0.6 times its collaborative score —
each term present exactly when the course appears in the respective list and
both summed when it appears in both — and every candidate surviving the
filter step carries the final ranking score
`merged * 0.6 + (popularity_score * 0.2) * 0.2 + level_match * 0.2`, where
`level_match` is 1.2 when the course's level divided by 100 equals the
student's year of study and 1.0 otherwise. -/
theorem merged_and_final_score_formula (m : TrainedModel)
    (content collab : List (String × ℚ)) (taken : List String) (dfilter : Option String)
    (year : ℕ) (out : List (String × ℚ))
    (hc : (content.map Prod.fst).Nodup) (hb : (collab.map Prod.fst).Nodup)
    (hout : filterCandidates m taken dfilter year (mergedRecs content collab taken)
      = Except.ok out) :
    (∀ cid, lookupQ (mergedRecs content collab taken) cid =
      if cid ∈ taken then none
      else match lookupQ content cid, lookupQ collab cid with
        | none, none => none
        | some a, none => some (a * 0.4)
        | none, some b => some (b * 0.6)
        | some a, some b => some (a * 0.4 + b * 0.6)) ∧
    (∀ p ∈ out, ∃ s, lookupQ (mergedRecs content collab taken) p.1 = some s ∧
      ∃ course, m.courses.find? (fun k => k.course_id = p.1) = some course ∧
      p.2 = s * 0.6 + (popularityScore m.courses m.history p.1 * 0.2) * 0.2
        + levelMatch course year * 0.2) := by
  constructor
  · intro cid
    exact mergedRecs_lookup content collab taken cid hc hb
  · intro p hp
    obtain ⟨q, hq, hqp, course, hfind, _, _, hform⟩ :=
      filterCandidates_spec m taken dfilter year _ out hout p hp
    refine ⟨q.2, ?_, course, by rw [← hqp]; exact hfind, by rw [← hqp]; exact hform⟩
    have := lookupQ_of_mem (mergedRecs_keys_nodup content collab taken) hq
    rw [← hqp]
    exact this

/-- C1 witness: a concrete run of the merge and filter stages on the model
`Wm` (content candidates from courses a and b with a taken, no collaborative
candidates). -/
theorem merged_and_final_score_formula_witness :
    filterCandidates Wm ["a"] none 1 (mergedRecs [("a", 1.5), ("b", 1.15)] [] ["a"])
      = Except.ok [("b", 0.516)] ∧
    lookupQ (mergedRecs [("a", (1.5 : ℚ)), ("b", 1.15)] [] ["a"]) "b" = some (1.15 * 0.4) := by
  have hout : filterCandidates Wm ["a"] none 1 (mergedRecs [("a", 1.5), ("b", 1.15)] [] ["a"])
      = Except.ok [("b", 0.516)] := by
    simp [mergedRecs, dictSet, filterCandidates, Wm, wCourseA, wCourseB, difficultySkip,
      popularityScore, enrollmentCount, enrollmentMax, avgRatingFilled, avgRatingRaw,
      ratedRatings, levelMatch, Except.map]
    norm_num
  have h := merged_and_final_score_formula Wm [("a", 1.5), ("b", 1.15)] [] ["a"] none 1
    [("b", 0.516)] (by simp) (by simp) hout
  refine ⟨hout, (h.1 "b").trans ?_⟩
  simp [lookupQ, mergedRecs, dictSet]

theorem Wm_recommend_eval :
    recommend_courses Wm (fun _ _ => 0) "s1" 5 true none = Except.ok [wRecB] := by
  simp +decide [recommend_courses, Wm, wStudent1, wCourseA, wCourseB, wRecB, takenCourses,
    getContentBased, contentQueryText, addTakenSims, firstUnique, firstUniqueGo,
    sortByScoreDesc, insertByDesc, collabRecsUsed, matrixIndex, matrixColumns, sortStrings,
    insertAsc, rowSum, matrixCell, pairRecords, interactionValue, getCollaborative,
    similarStudents, dictSet, dictAdd, mergedRecs, filterCandidates, difficultySkip,
    popularityScore, enrollmentCount, enrollmentMax, avgRatingFilled, avgRatingRaw,
    ratedRatings, levelMatch, formatRecs, fmtRating, avgRatingCol, pyRound, Except.map,
    List.range_succ, List.findIdx_cons]
  norm_num
  simp +decide [filterCandidates, difficultySkip, dictSet, popularityScore, enrollmentCount,
    enrollmentMax, avgRatingFilled, avgRatingRaw, ratedRatings, levelMatch, formatRecs,
    fmtRating, avgRatingCol, sortByScoreDesc, insertByDesc, pyRound, Except.map, Wm,
    wCourseA, wCourseB, wRecB]
  norm_num [Int.fract]

/-- C2: with `exclude_taken = true` every returned course's prerequisite set
is a subset of the student's taken-course set, and with
`exclude_taken = false` the taken set used by the check is empty, so every
course with at least one prerequisite is excluded from the output. -/
theorem prereqs_subset_taken (m : TrainedModel) (simFn : List ℚ → List ℚ → ℚ) (sid : String)
    (limit : ℕ) (dfilter : Option String) :
    (∀ recs, recommend_courses m simFn sid limit true dfilter = Except.ok recs →
      ∀ r ∈ recs, ∀ course,
        m.courses.find? (fun k => k.course_id = r.courseId) = some course →
        ∀ x ∈ course.prerequisites, x ∈ takenCourses m.history sid true) ∧
    (takenCourses m.history sid false = [] ∧
      ∀ recs, recommend_courses m simFn sid limit false dfilter = Except.ok recs →
      ∀ r ∈ recs, ∀ course,
        m.courses.find? (fun k => k.course_id = r.courseId) = some course →
        course.prerequisites = []) := by
  have main : ∀ (ex : Bool) (recs : List RecOut),
      recommend_courses m simFn sid limit ex dfilter = Except.ok recs →
      ∀ r ∈ recs, ∀ course,
        m.courses.find? (fun k => k.course_id = r.courseId) = some course →
        ∀ x ∈ course.prerequisites, x ∈ takenCourses m.history sid ex := by
    intro ex recs h r hr course hfind x hx
    obtain ⟨student, hstud, filtered, hfc, hfmt⟩ := recommend_courses_ok m simFn sid limit
      ex dfilter recs h
    obtain ⟨p, hptop, hcid, _, _⟩ := formatRecs_spec m _ recs hfmt r hr
    have hpfil : p ∈ filtered := mem_sortByScoreDesc.mp (List.mem_of_mem_take hptop)
    obtain ⟨q, _, hqp, course', hfind', _, hpre', _⟩ :=
      filterCandidates_spec m _ dfilter student.year_of_study _ filtered hfc p hpfil
    rw [hqp, ← hcid] at hfind'
    have hcc : course = course' := by
      rw [hfind] at hfind'
      exact Option.some.inj hfind'
    exact hpre' x (hcc ▸ hx)
  refine ⟨main true, rfl, ?_⟩
  intro recs h r hr course hfind
  have := main false recs h r hr course hfind
  cases hpre : course.prerequisites with
  | nil => rfl
  | cons y ys =>
    have hy := this y (by rw [hpre]; simp)
    rw [takenCourses, if_neg (by simp)] at hy
    simp at hy

/-- C2 witness: on the model `Wm`, course b (prerequisite a) is returned for
student s1 who has taken a, and the theorem yields that a lies in the
taken-course set. -/
theorem prereqs_subset_taken_witness :
    ("a" : String) ∈ takenCourses Wm.history "s1" true ∧
    takenCourses Wm.history "s1" false = [] := by
  constructor
  · refine (prereqs_subset_taken Wm (fun _ _ => 0) "s1" 5 none).1 [wRecB] Wm_recommend_eval
      wRecB (by simp) wCourseB ?_ "a" (by simp [wCourseB])
    simp +decide [Wm, wRecB, wCourseA, wCourseB]
  · exact (prereqs_subset_taken Wm (fun _ _ => 0) "s1" 5 none).2.1

theorem recommend_courses_eq (m : TrainedModel) (simFn : List ℚ → List ℚ → ℚ) (sid : String)
    (limit : ℕ) (ex : Bool) (df : Option String) (student : Student)
    (hstud : m.students.find? (fun s => s.student_id = sid) = some student) :
    recommend_courses m simFn sid limit ex df =
      match filterCandidates m (takenCourses m.history sid ex) df student.year_of_study
        (mergedRecs (getContentBased m sid student.topic_interests student.department (limit * 2))
          (collabRecsUsed m simFn sid limit) (takenCourses m.history sid ex)) with
      | Except.error e => Except.error e
      | Except.ok filtered => formatRecs m ((sortByScoreDesc filtered).take limit) := by
  rw [recommend_courses, hstud]

/-- C3 counterexample: on the witness model the student id "zz" is absent
from the students table, and `recommend_courses` raises the `IndexError` of
`students_df[...].iloc[0]` instead of degrading gracefully. -/
theorem unknown_student_error_counterexample :
    recommend_courses Wm (fun _ _ => 0) "zz" 5 true none
      = Except.error "IndexError: single positional indexer is out-of-bounds" := by
  simp +decide [recommend_courses, Wm, wStudent1]

/-- C3 (amended): the graceful degradation holds for a student who is present
in the students table but has no course-history records: no failure is
raised, the collaborative contribution is empty, and the taken-course set is
empty, so the results are content-derived. -/
theorem known_student_no_history_ok (m : TrainedModel) (simFn : List ℚ → List ℚ → ℚ)
    (sid : String) (limit : ℕ) (dfilter : Option String) (student : Student)
    (hstud : m.students.find? (fun s => s.student_id = sid) = some student)
    (hhist : ∀ r ∈ m.history, r.student_id ≠ sid) :
    ∃ recs, recommend_courses m simFn sid limit true dfilter = Except.ok recs ∧
      collabRecsUsed m simFn sid limit = [] ∧
      takenCourses m.history sid true = [] := by
  have htaken : takenCourses m.history sid true = [] := by
    rw [takenCourses, if_pos rfl]
    have : m.history.filter (fun r => r.student_id = sid) = [] := by
      rw [List.filter_eq_nil_iff]
      intro r hr
      simpa using hhist r hr
    rw [this]
    rfl
  have hidx : sid ∉ matrixIndex m.history := by
    rw [mem_matrixIndex]
    rintro ⟨r, hr, hrs⟩
    exact hhist r hr hrs
  have hcollab : collabRecsUsed m simFn sid limit = [] := by
    rw [collabRecsUsed, if_neg]
    rintro ⟨h1, _⟩
    exact hidx h1
  have hkeys : ∀ p ∈ mergedRecs
      (getContentBased m sid student.topic_interests student.department (limit * 2))
      (collabRecsUsed m simFn sid limit) (takenCourses m.history sid true),
      (m.courses.find? (fun k => k.course_id = p.1)).isSome := by
    intro p hp
    rcases mergedRecs_key_mem _ _ _ p hp with h | h
    · obtain ⟨q, hq, hqk⟩ := List.mem_map.mp h
      have := getContentBased_key_find m sid student.topic_interests student.department
        (limit * 2) q hq
      rwa [hqk] at this
    · rw [hcollab] at h
      simp at h
  obtain ⟨filtered, hfc⟩ :=
    filterCandidates_ok m (takenCourses m.history sid true) dfilter student.year_of_study _ hkeys
  have htop : ∀ p ∈ (sortByScoreDesc filtered).take limit,
      (m.courses.find? (fun k => k.course_id = p.1)).isSome := by
    intro p hp
    have hpfil := mem_sortByScoreDesc.mp (List.mem_of_mem_take hp)
    obtain ⟨q, _, hqp, course, hfind, _⟩ := filterCandidates_spec m
      (takenCourses m.history sid true) dfilter student.year_of_study _ filtered hfc p hpfil
    rw [← hqp]
    simp [hfind]
  obtain ⟨recs, hfmt⟩ := formatRecs_ok m _ htop
  refine ⟨recs, ?_, hcollab, htaken⟩
  rw [recommend_courses_eq m simFn sid limit true dfilter student hstud, hfc]
  exact hfmt

/-- C3 amended-claim witness: on `Wm0` student s1 exists with no history and
receives content-derived recommendations without error. -/
theorem known_student_no_history_ok_witness :
    ∃ recs, recommend_courses Wm0 (fun _ _ => 0) "s1" 5 true none = Except.ok recs ∧
      collabRecsUsed Wm0 (fun _ _ => 0) "s1" 5 = [] ∧
      takenCourses Wm0.history "s1" true = [] := by
  refine known_student_no_history_ok Wm0 (fun _ _ => 0) "s1" 5 none wStudent1 ?_ ?_
  · simp +decide [Wm0, wStudent1]
  · intro r hr
    simp [Wm0] at hr

/-- C7: a student without a matrix row makes `_get_collaborative_recommendations`
return the empty list, and the guard in `recommend_courses` makes the
collaborative contribution empty both for a student without a row and for a
student whose row sums to zero. -/
theorem collaborative_empty_no_signal (m : TrainedModel) (simFn : List ℚ → List ℚ → ℚ)
    (sid : String) (limit : ℕ) :
    (sid ∉ matrixIndex m.history → getCollaborative m simFn sid limit = []) ∧
    (sid ∉ matrixIndex m.history ∨ rowSum m.history sid = 0 →
      collabRecsUsed m simFn sid limit = []) := by
  constructor
  · intro h
    rw [getCollaborative, if_pos h]
  · intro h
    rw [collabRecsUsed, if_neg]
    rintro ⟨h1, h2⟩
    rcases h with h | h
    · exact h h1
    · exact h2 h

/-- C7 witness: on `W7`, an unknown student id gets an empty collaborative
list, and the known student s1 — whose interaction row sums to zero — gets an
empty collaborative contribution through the guard. -/
theorem collaborative_empty_no_signal_witness :
    getCollaborative W7 (fun _ _ => 0) "s2" 10 = [] ∧
    collabRecsUsed W7 (fun _ _ => 0) "s1" 5 = [] := by
  constructor
  · refine (collaborative_empty_no_signal W7 (fun _ _ => 0) "s2" 10).1 ?_
    simp +decide [matrixIndex, W7, firstUnique, firstUniqueGo, sortStrings, insertAsc]
  · refine (collaborative_empty_no_signal W7 (fun _ _ => 0) "s1" 5).2 (Or.inr ?_)
    norm_num [rowSum, matrixColumns, W7, firstUnique, firstUniqueGo, sortStrings, insertAsc,
      matrixCell, pairRecords, interactionValue]

/-- C5: every recommendation record carries
`matchScore = min(round(final_score * 100), 100)`, an integer in [0, 100]
(given the nonnegativity of the cosine-similarity data and of the recorded
ratings, which TF-IDF vectors and 1–5 ratings always satisfy). -/
theorem matchScore_in_range (m : TrainedModel) (simFn : List ℚ → List ℚ → ℚ) (sid : String)
    (limit : ℕ) (ex : Bool) (df : Option String) (recs : List RecOut)
    (hq : ∀ q, ∀ x ∈ m.querySim q, 0 ≤ x)
    (hm : ∀ row ∈ m.course_similarity_matrix, ∀ x ∈ row, 0 ≤ x)
    (hs : ∀ a b, 0 ≤ simFn a b)
    (hr : ∀ r ∈ m.history, ∀ v, r.student_rating = some v → 0 ≤ v)
    (h : recommend_courses m simFn sid limit ex df = Except.ok recs) :
    ∀ r ∈ recs, (∃ f, 0 ≤ f ∧ r.matchScore = min (pyRound (f * 100)) 100) ∧
      0 ≤ r.matchScore ∧ r.matchScore ≤ 100 := by
  intro r hrm
  obtain ⟨student, hstud, filtered, hfc, hfmt⟩ :=
    recommend_courses_ok m simFn sid limit ex df recs h
  obtain ⟨p, hptop, hcid, hrat, hms⟩ := formatRecs_spec m _ recs hfmt r hrm
  have hpfil := mem_sortByScoreDesc.mp (List.mem_of_mem_take hptop)
  obtain ⟨q, hq', hqp, course, hfind, _, _, hform⟩ := filterCandidates_spec m
    (takenCourses m.history sid ex) df student.year_of_study _ filtered hfc p hpfil
  have hqnn : 0 ≤ q.2 := mergedRecs_values_nonneg _ _ _
    (getContentBased_nonneg m sid student.topic_interests student.department (limit * 2)
      (hq _) hm)
    (collabRecsUsed_nonneg m simFn sid limit hs) q hq'
  have hpop := popularityScore_nonneg m.courses m.history q.1 hr
  have hlm := levelMatch_ge_one course student.year_of_study
  have hf : 0 ≤ p.2 := by rw [hform]; nlinarith
  refine ⟨⟨p.2, hf, hms⟩, ?_, ?_⟩
  · rw [hms]
    exact le_min (pyRound_nonneg (p.2 * 100) (by nlinarith)) (by norm_num)
  · rw [hms]
    exact min_le_right _ _

/-- C5 witness: the record returned on `Wm` has matchScore 52, within
[0, 100] and of the stated min-round form. -/
theorem matchScore_in_range_witness :
    (∃ f, 0 ≤ f ∧ wRecB.matchScore = min (pyRound (f * 100)) 100) ∧
    0 ≤ wRecB.matchScore ∧ wRecB.matchScore ≤ 100 := by
  refine matchScore_in_range Wm (fun _ _ => 0) "s1" 5 true none [wRecB]
    ?_ ?_ ?_ ?_ Wm_recommend_eval wRecB (by simp)
  · intro q x hx
    simp [Wm] at hx
    norm_num [hx]
  · intro row hrow x hx
    simp [Wm] at hrow
    rcases hrow with hrow | hrow <;>
      · rw [hrow] at hx
        simp at hx
        rcases hx with hx | hx <;> norm_num [hx]
  · intro a b
    norm_num
  · intro rec hrec v hv
    simp [Wm] at hrec
    rw [hrec] at hv
    simp at hv
    rw [← hv]
    norm_num

theorem firstUniqueGo_length_le : ∀ (l seen : List String),
    (firstUniqueGo l seen).length ≤ l.length := by
  intro l
  induction l with
  | nil => intro seen; simp [firstUniqueGo]
  | cons x xs ih =>
    intro seen
    by_cases h : x ∈ seen
    · rw [firstUniqueGo, if_pos h]
      exact Nat.le_succ_of_le (ih seen)
    · rw [firstUniqueGo, if_neg h]
      simpa using ih (x :: seen)

theorem studentCourseSet_length_le (hist : List HistoryRecord) (sid : String) :
    (studentCourseSet hist sid).length ≤
      (hist.filter (fun r => r.student_id = sid)).length := by
  unfold studentCourseSet firstUnique
  calc (firstUniqueGo ((hist.filter (fun r => r.student_id = sid)).map (·.course_id)) []).length
      ≤ ((hist.filter (fun r => r.student_id = sid)).map (·.course_id)).length :=
        firstUniqueGo_length_le _ _
    _ = (hist.filter (fun r => r.student_id = sid)).length := List.length_map _ _

theorem evalRows_min_courses (hist : List HistoryRecord)
    (recFn : String → String → List String) : ∀ (ids : List String),
    ∀ row ∈ evalRows hist recFn ids, 2 ≤ (studentCourseSet hist row.student_id).length := by
  intro ids
  induction ids with
  | nil => intro row hrow; simp [evalRows] at hrow
  | cons sid rest ih =>
    intro row hrow
    rw [evalRows] at hrow
    simp only [] at hrow
    split at hrow
    · exact ih row hrow
    · rename_i hge
      rcases List.mem_cons.mp hrow with h | h
      · have hsidr : row.student_id = sid := by
          rw [h]
          split <;> rfl
        rw [hsidr]
        omega
      · exact ih row h

/-- C8: the evaluator skips every test student with fewer than two historical
courses (no result row is produced for such a student), and when every
student of the cohort has fewer than two historical courses it returns the
structured "no suitable test students" error instead of throwing. -/
theorem evaluate_skips_and_error (hist : List HistoryRecord)
    (recFn : String → String → List String) (test_ids : List String) :
    (∀ sid ∈ test_ids, (hist.filter (fun r => r.student_id = sid)).length < 2 →
      ∀ row ∈ evalRows hist recFn test_ids, row.student_id ≠ sid) ∧
    ((∀ sid ∈ test_ids, (hist.filter (fun r => r.student_id = sid)).length < 2) →
      evaluate hist recFn test_ids = EvalOutcome.err "No suitable test students found") := by
  constructor
  · intro sid _ hlt row hrow hcontra
    have h2 := evalRows_min_courses hist recFn test_ids row hrow
    rw [hcontra] at h2
    have := studentCourseSet_length_le hist sid
    omega
  · intro hall
    have hrows : evalRows hist recFn test_ids = [] := by
      induction test_ids with
      | nil => rfl
      | cons sid rest ih =>
        rw [evalRows]
        simp only []
        rw [if_pos]
        · exact ih (fun s hs => hall s (List.mem_cons_of_mem _ hs))
        · have h1 := hall sid (by simp)
          have h2 := studentCourseSet_length_le hist sid
          omega
    rw [evaluate, hrows]
    rfl

/-- C8 witness: a cohort of a single student with exactly one historical
course triggers both the skip and the structured error. -/
theorem evaluate_skips_and_error_witness :
    evaluate [⟨"s1", "a", "t1", 4, some 4⟩] (fun _ _ => []) ["s1"]
      = EvalOutcome.err "No suitable test students found" := by
  refine (evaluate_skips_and_error [⟨"s1", "a", "t1", 4, some 4⟩] (fun _ _ => []) ["s1"]).2 ?_
  intro sid hsid
  simp at hsid
  simp +decide [hsid]

theorem Wm0_recommend_eval :
    recommend_courses Wm0 (fun _ _ => 0) "s1" 5 true none = Except.ok [wRecA] := by
  simp +decide [recommend_courses, Wm0, wStudent1, wCourseA, wRecA, takenCourses,
    getContentBased, contentQueryText, addTakenSims, firstUnique, firstUniqueGo,
    sortByScoreDesc, insertByDesc, collabRecsUsed, matrixIndex, matrixColumns, sortStrings,
    insertAsc, rowSum, matrixCell, pairRecords, interactionValue, getCollaborative,
    similarStudents, dictSet, dictAdd, mergedRecs, filterCandidates, difficultySkip,
    popularityScore, enrollmentCount, enrollmentMax, avgRatingFilled, avgRatingRaw,
    ratedRatings, levelMatch, formatRecs, fmtRating, avgRatingCol, pyRound, Except.map,
    List.range_succ, List.findIdx_cons]
  norm_num [Int.fract]

/-- C9 counterexample: on `Wm0` course a has no recorded rating
(`avgRatingRaw` is `none`), yet the emitted rating field of the returned
recommendation is the numeric default `some 0`, not `none`. -/
theorem rating_default_counterexample :
    avgRatingRaw Wm0.history "a" = none ∧
    recommend_courses Wm0 (fun _ _ => 0) "s1" 5 true none = Except.ok [wRecA] ∧
    wRecA.rating = some 0 ∧ ¬ wRecA.rating = none := by
  refine ⟨?_, Wm0_recommend_eval, rfl, by simp [wRecA]⟩
  simp [avgRatingRaw, ratedRatings, Wm0]

/-- C9 (amended): for every returned course with no recorded rating, the
emitted rating field equals `some 0` — the value `fillna(0)` put into the
`avg_rating` column — rather than `none`. -/
theorem unrated_course_rating_zero (m : TrainedModel) (simFn : List ℚ → List ℚ → ℚ)
    (sid : String) (limit : ℕ) (ex : Bool) (df : Option String) (recs : List RecOut)
    (h : recommend_courses m simFn sid limit ex df = Except.ok recs) :
    ∀ r ∈ recs, avgRatingRaw m.history r.courseId = none → r.rating = some 0 := by
  intro r hr hraw
  obtain ⟨student, hstud, filtered, hfc, hfmt⟩ :=
    recommend_courses_ok m simFn sid limit ex df recs h
  obtain ⟨p, _, hcid, hrat, _⟩ := formatRecs_spec m _ recs hfmt r hr
  rw [hcid] at hraw
  rw [hrat]
  simp [fmtRating, avgRatingCol, avgRatingFilled, hraw]

/-- C9 amended-claim witness: the record returned on `Wm0` gets rating
`some 0` for its unrated course. -/
theorem unrated_course_rating_zero_witness : wRecA.rating = some 0 := by
  refine unrated_course_rating_zero Wm0 (fun _ _ => 0) "s1" 5 true none [wRecA]
    Wm0_recommend_eval wRecA (by simp) ?_
  simp [avgRatingRaw, ratedRatings, Wm0, wRecA]

theorem zipWith_mul_self (x : List ℝ) :
    List.zipWith (fun a b => a * b) x x = x.map (fun a => a * a) := by
  induction x with
  | nil => rfl
  | cons a as ih => simp [List.zipWith_cons_cons, ih]

theorem dotP_self_nonneg (x : List ℝ) : 0 ≤ dotP x x := by
  unfold dotP
  rw [zipWith_mul_self]
  apply List.sum_nonneg
  intro v hv
  obtain ⟨a, _, ha⟩ := List.mem_map.mp hv
  rw [← ha]
  exact mul_self_nonneg a

theorem dotP_comm (x y : List ℝ) : dotP x y = dotP y x := by
  unfold dotP
  rw [List.zipWith_comm_of_comm (fun a b => a * b) mul_comm]

/-- C6: the course×course similarity matrix of
`cosine_similarity(course_content_matrix)` is symmetric, and every course
whose TF-IDF row is nonzero (every row whose self dot product is nonzero,
which holds for each course document containing at least one vocabulary
term) has diagonal entry exactly 1. -/
theorem similarity_symmetric_diag_one (rows : List (List ℝ)) :
    (∀ i j, courseSimilarityMatrixR rows i j = courseSimilarityMatrixR rows j i) ∧
    (∀ i, dotP (rows.getD i []) (rows.getD i []) ≠ 0 →
      courseSimilarityMatrixR rows i i = 1) := by
  constructor
  · intro i j
    unfold courseSimilarityMatrixR cosineSimR
    rw [dotP_comm, mul_comm]
  · intro i hne
    unfold courseSimilarityMatrixR cosineSimR
    rw [Real.mul_self_sqrt (dotP_self_nonneg _)]
    exact div_self hne

/-- C6 witness: the one-course content matrix with row [1, 0] has a symmetric
similarity matrix with diagonal entry 1. -/
theorem similarity_symmetric_diag_one_witness :
    courseSimilarityMatrixR [[(1 : ℝ), 0]] 0 0 = 1 ∧
    courseSimilarityMatrixR [[(1 : ℝ), 0]] 0 1 = courseSimilarityMatrixR [[(1 : ℝ), 0]] 1 0 := by
  constructor
  · refine (similarity_symmetric_diag_one [[(1 : ℝ), 0]]).2 0 ?_
    norm_num [dotP, List.getD]
  · exact (similarity_symmetric_diag_one [[(1 : ℝ), 0]]).1 0 1
